import Mathlib

/-!
Verification of the TobyPlus voice/text chat widget.

This file shallowly embeds the parts of the client script (src/chatbot.js and
the unnamed variants src/unnamed/part_000 .. part_003) and of the serverless
transcribe proxy (src/netlify/functions/transcribe.js) that the frozen claims
talk about, and settles each claim against the embedding.

Conventions: JS numbers that only ever hold timestamps, sizes or HTTP status
codes are modelled as Nat; byte samples of the analyser buffer as Int (values
0..255 in the code); JS string falsiness (the empty string is falsy) is
modelled explicitly wherever the code relies on it.
-/

namespace TobyPlus

/-! ### Silence detector (src/chatbot.js lines 177-202, src/unnamed/part_000 lines 73-100)

The code computes, once per animation frame,
  rms = sqrt(sum((v-128)/128)^2 / data.length), volume = rms * 100
and compares volume < 5.  Since volume is non-negative, volume < 5 is
equivalent to volume^2 < 25; `loudnessSq` is the exact value of volume^2 as a
rational, so `isSilent` decides exactly the comparison the code makes
(over the reals; the code uses IEEE doubles, which the spec treats as exact
arithmetic). -/

/-- Square of the loudness value the silence detector computes:
volume^2 = 10000 * (sum of ((v-128)/128)^2) / data.length. -/
def loudnessSq (data : List Int) : ℚ :=
  10000 * ((data.map (fun v : ℤ => (((v : ℚ) - 128) / 128) ^ 2)).sum) / data.length

/-- Sum of the squared centered samples. -/
def sumSq (data : List Int) : Int :=
  (data.map (fun v => (v - 128) ^ 2)).sum

/-- A frame counts as silence when volume < 5, i.e. volume^2 < 25; clearing
the denominators 16384 = 128^2 and data.length and dividing by 400 turns that
into the integer test 25 * sumSq < 1024 * length (see isSilent_eq_loudnessSq
below for the proof that this decides exactly loudnessSq < 25 on the nonempty
buffers the code feeds in — the analyser buffer always has fftSize = 256
samples). -/
def isSilent (data : List Int) : Bool :=
  decide (25 * sumSq data < 1024 * data.length)

/-- One sampled animation frame: the Date.now() timestamp at which
checkSilence ran, and the analyser byte buffer it read. -/
structure Frame where
  time : Nat
  data : List Int
deriving DecidableEq

/-- The silence-detection loop (checkSilence in src/chatbot.js lines 179-202).
State is the silenceStart variable (none = null).  Per silent frame:
if (!silenceStart) silenceStart = Date.now()  -- note: 0 is falsy in JS,
else if (Date.now() - silenceStart > 2000) stopRecording().
A loud frame resets silenceStart to null.  Returns the timestamp at which
stopRecording is called by the detector, if any; the loop exits right after
that call (and hasStopped makes a second stop a no-op), so the stop can
trigger at most once, which the Option result makes structural. -/
def runDetector : Option Nat → List Frame → Option Nat
  | _, [] => none
  | st, f :: rest =>
    if isSilent f.data then
      if st = none ∨ st = some 0 then runDetector (some f.time) rest
      else if f.time - st.getD 0 > 2000 then some f.time
      else runDetector st rest
    else runDetector none rest

/-- Modelled from the claim wording: a continuous run of sub-threshold frames,
started at timestamp t0, reaches a frame strictly more than 2000 ms later. -/
def silentRunTrig (t0 : Nat) : List Frame → Bool
  | [] => false
  | f :: rest => isSilent f.data && (decide (f.time - t0 > 2000) || silentRunTrig t0 rest)

/-- Modelled from the claim wording: somewhere in the frame sequence, a silent
frame is followed by a continuous run of silent frames spanning strictly more
than 2000 ms. -/
def specTrig : List Frame → Bool
  | [] => false
  | f :: rest => (isSilent f.data && silentRunTrig f.time rest) || specTrig rest

/-- Modelled from the claim wording, with the boundary the claim states:
at least 2000 ms (greater or equal) of continuous silence. -/
def silentRunTrigGe (t0 : Nat) : List Frame → Bool
  | [] => false
  | f :: rest => isSilent f.data && (decide (f.time - t0 ≥ 2000) || silentRunTrigGe t0 rest)

/-- Modelled from the claim wording, greater-or-equal boundary. -/
def specTrigGe : List Frame → Bool
  | [] => false
  | f :: rest => (isSilent f.data && silentRunTrigGe f.time rest) || specTrigGe rest

/-! ### Conversation client poll loop (src/chatbot.js lines 290-308) -/

/-- One scripted response of the check-run endpoint: HTTP 202, a success
response whose JSON body may or may not carry a reply field, or another
status. -/
inductive CheckResp where
  | notReady
  | ok (reply : Option String)
  | errStatus (status : Nat)
deriving DecidableEq

/-- What the code renders from a success body: data.reply || "(No response)".
In JS the empty string is falsy, so an empty reply also yields the
placeholder. -/
def renderReply : Option String → String
  | none => "(No response)"
  | some s => if s = "" then "(No response)" else s

/-- Outcome of the while (!completed) poll loop, together with how many
check-run requests were issued and the total milliseconds spent in the
await-setTimeout sleeps. -/
inductive PollResult where
  | success (rendered : String) (requests : Nat) (delayMs : Nat)
  | failure (status : Nat) (requests : Nat) (delayMs : Nat)
  | pending (requests : Nat) (delayMs : Nat)
deriving DecidableEq

/-- The poll loop of the form submit handler: each iteration issues one
check-run request; a 202 sleeps exactly 1000 ms and loops; an ok response
renders data.reply || "(No response)" and completes; any other status throws.
`pending` is reached only when the scripted response list runs out while the
real loop would still be polling. -/
def pollLoop : Nat → Nat → List CheckResp → PollResult
  | reqs, delay, [] => .pending reqs delay
  | reqs, delay, .notReady :: rest => pollLoop (reqs + 1) (delay + 1000) rest
  | reqs, delay, .ok r :: _ => .success (renderReply r) (reqs + 1) delay
  | reqs, delay, .errStatus s :: _ => .failure s (reqs + 1) delay

/-! ### Thread identity across turns (src/chatbot.js lines 283-296)

The submit handler posts (message, thread_id) to start-run, then runs
  thread_id = newThreadId
before entering the poll loop, whose every request body reads the updated
global thread_id.  A session is the fold of successful turns over the
thread_id the server returns in each start-run response. -/

/-- The thread ids one turn puts on the wire: the start-run request body
carries the session thread_id from before the turn, and every check-run
request of the turn carries the id the start-run response returned (the
global is overwritten before the poll loop starts). -/
structure TurnTrace where
  startSent : Option String
  checkSent : Option String
deriving DecidableEq

/-- Fold of a session: state is the thread_id global (none until the first
response), inputs are the thread_id values carried by the successive
successful start-run responses. -/
def runSession : Option String → List (Option String) → List TurnTrace
  | _, [] => []
  | tid, resp :: rest => ⟨tid, resp⟩ :: runSession resp rest

/-! ### Recorder finalization (src/chatbot.js lines 160-167, src/unnamed/part_001 lines 188-199) -/

/-- Observable effects of the mediaRecorder.onstop handler. -/
structure StopEffects where
  sentTranscription : Bool
  tracksReleased : Bool
deriving DecidableEq

/-- onstop in src/chatbot.js: `if (!chunks.length) return;` runs before the
track release, so an empty recording returns without stopping the tracks.
sendAudioForTranscription catches every error internally (its try/catch has
no rethrow), so a downstream transcription failure never prevents the
release that follows the await; downstreamFails is therefore immaterial. -/
def onstopMain (chunks : List Nat) (_downstreamFails : Bool) : StopEffects :=
  if chunks.isEmpty then ⟨false, false⟩ else ⟨true, true⟩

/-- onstop in src/unnamed/part_001: the body is wrapped in try/finally and the
track release sits in the finally block, so it runs even on the early
`if (!chunks.length) return;` and on any downstream failure. -/
def onstopFinallyVariant (chunks : List Nat) (_downstreamFails : Bool) : StopEffects :=
  if chunks.isEmpty then ⟨false, true⟩ else ⟨true, true⟩

/-! ### Speech queue (src/chatbot.js lines 52-58 and 347-360)

enqueueSpeech chains each playback promise after the previous one via
speechQueue = speechQueue.then(fn).catch(...), so a queued utterance starts
when both (a) it has been enqueued and (b) the previous chain link has
settled (completed or failed; the catch keeps the chain alive).  The replay
button (lines 350-360), however, plays the cached data-URL audio with
`new Audio(url); audio.play()` directly, never going through enqueueSpeech. -/

/-- An audio-output operation: `queued d` goes through enqueueSpeech (duration
d ms), `direct d` is the replay path that plays immediately. -/
inductive AudioOp where
  | queued (dur : Nat)
  | direct (dur : Nat)
deriving DecidableEq

/-- True for operations that are serialized through the speech queue. -/
def isQueued : AudioOp → Bool
  | .queued _ => true
  | .direct _ => false

/-- Playback schedule: first component of the state is the time at which the
speech queue chain becomes free.  Each arrival is (trigger time, operation).
A queued operation starts at max(arrival, queue free time) and occupies the
chain until it settles; a direct operation starts at its trigger time and
leaves the chain untouched.  Returns (start, end) per operation in arrival
order. -/
def playSchedule : Nat → List (Nat × AudioOp) → List (Nat × Nat)
  | _, [] => []
  | qfree, (t, .queued d) :: rest =>
    (max t qfree, max t qfree + d) :: playSchedule (max t qfree + d) rest
  | qfree, (t, .direct d) :: rest => (t, t + d) :: playSchedule qfree rest

/-! ### Remote voice strategies (src/unnamed/part_000 lines 191-219, src/unnamed/part_002 lines 119-134) -/

/-- Which step of the remote text-to-speech path fails, if any. -/
inductive RemoteFailure where
  | noFailure
  | networkError
  | httpError
  | jsonError
  | decodeError
  | playbackRejected
deriving DecidableEq

/-- Observable outcome of one speakServer call. -/
inductive VoiceAction where
  | playedRemote
  | fellBackLocal
  | silentFailure
deriving DecidableEq

/-- speakServer of src/unnamed/part_000 (queued variant): fetch, the !res.ok
throw and res.json() are awaited inside try, whose catch calls
speakBrowser(text); the audio element has an onerror handler that calls
speakBrowser; audio.play() is awaited with a .catch that calls speakBrowser.
Every failure therefore falls back to the local synthesizer. -/
def speakServerQueued (f : RemoteFailure) : VoiceAction :=
  match f with
  | .noFailure => .playedRemote
  | .networkError => .fellBackLocal
  | .httpError => .fellBackLocal
  | .jsonError => .fellBackLocal
  | .decodeError => .fellBackLocal
  | .playbackRejected => .fellBackLocal

/-- speakServer of src/unnamed/part_002: fetch, the !res.ok throw and
res.json() are awaited inside try/catch (fallback to speakBrowser), but
audio.play() is called without await and without a rejection handler, and no
onerror handler is installed on the Audio element, so a media decode error or
a playback rejection (autoplay blocking) leaves an unhandled rejection and no
fallback. -/
def speakServerDirect (f : RemoteFailure) : VoiceAction :=
  match f with
  | .noFailure => .playedRemote
  | .networkError => .fellBackLocal
  | .httpError => .fellBackLocal
  | .jsonError => .fellBackLocal
  | .decodeError => .silentFailure
  | .playbackRejected => .silentFailure

/-! ### Transcribe proxy (src/netlify/functions/transcribe.js) -/

/-- The allow-list at the top of the function (lines 6-10). -/
def allowedOrigins : List String :=
  ["https://masterplumbers.org.nz",
   "https://resilient-palmier-22bdf1.netlify.app",
   "https://caitskinz.github.io/tobytest/"]

/-- corsOrigin (line 14): the request Origin if it is in the allow-list,
otherwise allowedOrigins[0].  A request without an Origin header also falls
to the first entry (Array.includes(undefined) is false). -/
def corsOrigin (origin : Option String) : String :=
  match origin with
  | some o => if o ∈ allowedOrigins then o else allowedOrigins.headD ""
  | none => allowedOrigins.headD ""

/-- Result of JSON.parse(event.body || "..."): either the parse threw, or it
produced an object whose audioBase64 field is the given option (none models
both a missing field and undefined; the empty string is handled separately
because it is falsy).  mimeType and fileName only feed the upstream form and
never influence the status code, so they are not carried. -/
inductive BodyParse where
  | malformed
  | parsed (audioBase64 : Option String)
deriving DecidableEq

/-- The part of the handler response the claims are about. -/
structure HandlerResponse where
  statusCode : Nat
  corsHeader : String
deriving DecidableEq

/-- The status code of exports.handler of src/netlify/functions/transcribe.js:
OPTIONS preflight returns 200; other non-POST returns 405; a body whose
JSON.parse throws hits the outer catch and returns 500; a falsy audioBase64
returns 400; a falsy process.env.OPENAI_API_KEY returns 500; a non-ok
upstream response is relayed as 502; otherwise 200. -/
def transcribeStatus (method : String) (body : BodyParse) (apiKey : Option String)
    (upstreamOk : Bool) : Nat :=
  if method = "OPTIONS" then 200
  else if method ≠ "POST" then 405
  else
    match body with
    | .malformed => 500
    | .parsed audio =>
      match audio with
      | none => 400
      | some a =>
        if a = "" then 400
        else
          match apiKey with
          | none => 500
          | some k =>
            if k = "" then 500
            else if upstreamOk then 200 else 502

/-- exports.handler: every return statement of the source pairs its status
code with the same Access-Control-Allow-Origin value corsOrigin, computed
once at the top from the request Origin. -/
def transcribeHandler (method : String) (origin : Option String)
    (body : BodyParse) (apiKey : Option String) (upstreamOk : Bool) : HandlerResponse :=
  ⟨transcribeStatus method body apiKey upstreamOk, corsOrigin origin⟩

/-! ### Citation stripping (src/chatbot.js lines 329-337, src/unnamed/part_001 lines 381-388)

stripCitations is
  text.replace(/【\d+:\d+†[^†【】]+(?:†[^【】]*)?】/g, "")
Strings are modelled as List Char.  The pattern is deterministic: every
quantified piece is followed by a character its own class excludes, so the
greedy munch never backtracks, and the JS g-flag replace scans the original
string left to right, resuming after each match (it never rescans the
spliced-together output). -/

/-- JS \d : the ASCII digits. -/
def isDigitChar (c : Char) : Bool := decide ('0' ≤ c) && decide (c ≤ '9')

/-- The label class of the pattern. -/
def isLabelChar (c : Char) : Bool := c ≠ '†' && c ≠ '【' && c ≠ '】'

/-- The optional-extra class of the pattern. -/
def isExtraChar (c : Char) : Bool := c ≠ '【' && c ≠ '】'

/-- Matches the regex body after its opening bracket at the head of s:
digits ":" digits "†" label ("†" extra)? "】".  Returns the remainder after
the closing bracket when the pattern matches.  Each quantifier is a greedy
munch (takeWhile / dropWhile); no backtracking is needed because each class
excludes the character that must follow it. -/
def matchTail (s : List Char) : Option (List Char) :=
  if (s.takeWhile isDigitChar).isEmpty then none else
    match s.dropWhile isDigitChar with
    | ':' :: s2 =>
      if (s2.takeWhile isDigitChar).isEmpty then none else
        match s2.dropWhile isDigitChar with
        | '†' :: s3 =>
          if (s3.takeWhile isLabelChar).isEmpty then none else
            match s3.dropWhile isLabelChar with
            | '】' :: s4 => some s4
            | '†' :: s4 =>
              match s4.dropWhile isExtraChar with
              | '】' :: s5 => some s5
              | _ => none
            | _ => none
        | _ => none
    | _ => none

/-- Fueled left-to-right scan of the global replace: at each position, if the
pattern matches, emit nothing and resume after the match; otherwise emit the
character and move one position.  Fuel at least the length of the input is
always enough (each step consumes at least one character). -/
def stripFuel : Nat → List Char → List Char
  | 0, s => s
  | _ + 1, [] => []
  | fuel + 1, c :: rest =>
    if c = '【' then
      match matchTail rest with
      | some s4 => stripFuel fuel s4
      | none => c :: stripFuel fuel rest
    else c :: stripFuel fuel rest

/-- text.replace(citation pattern, "") with the g flag. -/
def stripCitations (s : List Char) : List Char := stripFuel s.length s

/-- Whether some substring of s matches the citation-marker pattern. -/
def containsMarker : List Char → Bool
  | [] => false
  | c :: rest => (c = '【' && (matchTail rest).isSome) || containsMarker rest

/-- The optional extra group of a marker, with its leading dagger. -/
def extPart : Option (List Char) → List Char
  | none => []
  | some e => '†' :: e

/-- A well-shaped citation marker 【d1:d2†lab】 or 【d1:d2†lab†ext】. -/
def marker (d1 d2 lab : List Char) (ext : Option (List Char)) : List Char :=
  '【' :: (d1 ++ ':' :: d2 ++ '†' :: lab ++ extPart ext ++ ['】'])

/-! ### Citation repair (src/unnamed/part_000 lines 247-261, src/unnamed/part_003 lines 78-93)

repairInlineCitations is
  text.replace(/\[Source:\s*(.*?)】】【(\d+):(\d+)]/g, "【$2:$3†$1†lines】")
      .replace(/\[Source:\s*(.*?)】【(\d+):(\d+)]/g, "【$2:$3†$1†lines】")
The lazy group (.*?) cannot match a newline; \s* is greedy and, because the
closing delimiters are never whitespace, never needs to backtrack (a shorter
whitespace munch only forces leading whitespace into the dot-group, which
changes nothing about whether the tail closes).  createBubble in these two
variants computes
  cleaned = stripCitations(content); repaired = repairInlineCitations(cleaned)
so the repair runs after the strip. -/

/-- The whitespace characters of JS \s that can occur here. -/
def isSpaceChar (c : Char) : Bool := c = ' ' || c = '\t' || c = '\n' || c = '\r'

/-- Parses digits ":" digits "]" at the head of s, the common tail of both
repair patterns after their closing-bracket delimiters.  Returns the two
digit groups and the remainder after the "]". -/
def parseNums (s : List Char) : Option (List Char × List Char × List Char) :=
  if (s.takeWhile isDigitChar).isEmpty then none else
    match s.dropWhile isDigitChar with
    | ':' :: s2 =>
      if (s2.takeWhile isDigitChar).isEmpty then none else
        match s2.dropWhile isDigitChar with
        | ']' :: s3 => some (s.takeWhile isDigitChar, s2.takeWhile isDigitChar, s3)
        | _ => none
    | _ => none

/-- Closing delimiter of the first repair pattern: "】】【" digits ":" digits "]". -/
def tryClose1 : List Char → Option (List Char × List Char × List Char)
  | c1 :: c2 :: c3 :: r =>
    if c1 = '】' ∧ c2 = '】' ∧ c3 = '【' then parseNums r else none
  | _ => none

/-- Closing delimiter of the second repair pattern: "】【" digits ":" digits "]". -/
def tryClose2 : List Char → Option (List Char × List Char × List Char)
  | c1 :: c2 :: r =>
    if c1 = '】' ∧ c2 = '【' then parseNums r else none
  | _ => none

/-- The lazy scan of (.*?) for the first pattern: at each position first try
to close; otherwise absorb one more character into the group, which cannot be
a newline.  Returns (group, digits, digits, remainder after the match). -/
def lazyFind1 : List Char → Option (List Char × List Char × List Char × List Char)
  | [] => none
  | c :: rest =>
    match tryClose1 (c :: rest) with
    | some (d1, d2, r) => some ([], d1, d2, r)
    | none =>
      if c = '\n' then none
      else (lazyFind1 rest).map (fun x => (c :: x.1, x.2.1, x.2.2.1, x.2.2.2))

/-- The lazy scan of (.*?) for the second pattern. -/
def lazyFind2 : List Char → Option (List Char × List Char × List Char × List Char)
  | [] => none
  | c :: rest =>
    match tryClose2 (c :: rest) with
    | some (d1, d2, r) => some ([], d1, d2, r)
    | none =>
      if c = '\n' then none
      else (lazyFind2 rest).map (fun x => (c :: x.1, x.2.1, x.2.2.1, x.2.2.2))

/-- The replacement text 【$2:$3†$1†lines】 of both repair regexes. -/
def canonMarker (d1 d2 lab : List Char) : List Char :=
  marker d1 d2 lab (some ['l', 'i', 'n', 'e', 's'])

/-- The literal "Source:" that follows the opening bracket of both patterns. -/
def sourceLit : List Char := ['S', 'o', 'u', 'r', 'c', 'e', ':']

/-- Fueled global replace shared by the two repair patterns, abstracted over
the lazy scan of the pattern body: at a position whose head is "[Source:",
munch whitespace greedily, run the lazy scan; on a match emit the canonical
marker and resume after the match, otherwise emit one character and rescan
from the next position (the JS scanner advances by one on failure).  Fuel at
least the length of the input is always enough. -/
def repairScanF (find : List Char → Option (List Char × List Char × List Char × List Char)) :
    Nat → List Char → List Char
  | 0, s => s
  | _ + 1, [] => []
  | fuel + 1, c :: rest =>
    if c = '[' ∧ rest.take 7 = sourceLit then
      match find ((rest.drop 7).dropWhile isSpaceChar) with
      | some (lab, d1, d2, r) => canonMarker d1 d2 lab ++ repairScanF find fuel r
      | none => c :: repairScanF find fuel rest
    else c :: repairScanF find fuel rest

/-- Global replace of one repair pattern over the whole string. -/
def repairScan (find : List Char → Option (List Char × List Char × List Char × List Char))
    (s : List Char) : List Char := repairScanF find s.length s

/-- First replace of repairInlineCitations. -/
def repairPass1 (s : List Char) : List Char := repairScan lazyFind1 s

/-- Second replace of repairInlineCitations. -/
def repairPass2 (s : List Char) : List Char := repairScan lazyFind2 s

/-- repairInlineCitations: the two replaces in source order. -/
def repairInlineCitations (s : List Char) : List Char := repairPass2 (repairPass1 s)

/-- The malformed citation shape the second repair pattern rewrites:
"[Source: " lab "】【" d1 ":" d2 "]". -/
def malformedCitation (lab d1 d2 : List Char) : List Char :=
  '[' :: sourceLit ++ ' ' :: lab ++ '】' :: '【' :: d1 ++ ':' :: d2 ++ [']']

/-! ## Theorems -/

/-- The integer silence test decides exactly the comparison volume^2 < 25
that the code makes, on any nonempty analyser buffer. -/
theorem isSilent_eq_loudnessSq (data : List Int) (hne : data ≠ []) :
    isSilent data = decide (loudnessSq data < 25) := by
  have hn : 0 < (data.length : ℚ) := by
    have := List.length_pos.mpr hne
    exact_mod_cast this
  have hsum : ∀ l : List Int, ((l.map (fun v : ℤ => (((v : ℚ) - 128) / 128) ^ 2)).sum) =
      ((((l.map (fun v => (v - 128) ^ 2)).sum : ℤ) : ℚ) / 16384) := by
    intro l
    induction l with
    | nil => simp
    | cons x xs ih =>
      simp only [List.map_cons, List.sum_cons, ih, Int.cast_add, add_div]
      congr 1
      push_cast
      rw [div_pow]
      norm_num
  have hiff : (25 * sumSq data < 1024 * data.length) ↔ loudnessSq data < 25 := by
    have hz : ((sumSq data : ℤ) : ℚ) = (((data.map (fun v => (v - 128) ^ 2)).sum : ℤ) : ℚ) := rfl
    simp only [loudnessSq]
    rw [hsum data, ← hz, div_lt_iff₀ hn,
      show (10000 : ℚ) * (((sumSq data : ℤ) : ℚ) / 16384) = 625 * ((sumSq data : ℤ) : ℚ) / 1024
        from by ring,
      div_lt_iff₀ (by norm_num : (0 : ℚ) < 1024)]
    constructor
    · intro h
      have h2 : ((25 * sumSq data : ℤ) : ℚ) < (((1024 : ℤ) * (data.length : ℤ) : ℤ) : ℚ) := by
        exact_mod_cast h
      push_cast at h2 ⊢
      linarith
    · intro h
      have h2 : (25 * (sumSq data : ℚ) : ℚ) < 1024 * (data.length : ℚ) := by
        push_cast at h ⊢
        linarith
      exact_mod_cast h2
  show decide (25 * sumSq data < 1024 * data.length) = decide (loudnessSq data < 25)
  exact decide_eq_decide.mpr hiff

/-- A silent run that triggers from a later start also triggers from an
earlier one: shrinking t0 only widens every elapsed difference. -/
theorem silentRunTrig_mono {t0 t1 : Nat} (h : t1 ≤ t0) :
    ∀ fs : List Frame, silentRunTrig t0 fs = true → silentRunTrig t1 fs = true := by
  intro fs
  induction fs with
  | nil => simp [silentRunTrig]
  | cons f rest ih =>
    simp only [silentRunTrig, Bool.and_eq_true, Bool.or_eq_true, decide_eq_true_eq]
    rintro ⟨hs, hgap | hrec⟩
    · exact ⟨hs, Or.inl (lt_of_lt_of_le hgap (Nat.sub_le_sub_left h f.time))⟩
    · exact ⟨hs, Or.inr (ih hrec)⟩

/-- Core correspondence between the detector loop and the declarative
trigger condition, simultaneously for a loop entered with a pending silence
start t0 and for one entered with silenceStart = null. -/
theorem runDetector_spec_aux :
    ∀ fs : List Frame, (∀ f ∈ fs, 0 < f.time) →
      List.Pairwise (fun a b => a.time ≤ b.time) fs →
      ((∀ t0, 0 < t0 → (∀ f ∈ fs, t0 ≤ f.time) →
          (runDetector (some t0) fs).isSome = (silentRunTrig t0 fs || specTrig fs)) ∧
        (runDetector none fs).isSome = specTrig fs) := by
  intro fs
  induction fs with
  | nil =>
    intro _ _
    constructor
    · intro t0 _ _
      simp [runDetector, silentRunTrig, specTrig]
    · simp [runDetector, specTrig]
  | cons f rest ih =>
    intro hpos hmono
    have hposR : ∀ g ∈ rest, 0 < g.time := fun g hg => hpos g (List.mem_cons_of_mem _ hg)
    have hmonoR := (List.pairwise_cons.mp hmono).2
    have hle : ∀ g ∈ rest, f.time ≤ g.time := (List.pairwise_cons.mp hmono).1
    obtain ⟨ihSome, ihNone⟩ := ih hposR hmonoR
    constructor
    · intro t0 ht0 ht0le
      have ht0f : t0 ≤ f.time := ht0le f (List.mem_cons_self f rest)
      have ht0R : ∀ g ∈ rest, t0 ≤ g.time := fun g hg => le_trans ht0f (hle g hg)
      have ht0ne : ¬ t0 = 0 := by omega
      by_cases hs : isSilent f.data
      · by_cases hgap : f.time - t0 > 2000
        · have hnow : runDetector (some t0) (f :: rest) = some f.time := by
            simp [runDetector, hs, ht0ne, hgap]
          rw [hnow]
          simp [silentRunTrig, hs, hgap]
        · have hrun : runDetector (some t0) (f :: rest) = runDetector (some t0) rest := by
            simp [runDetector, hs, ht0ne, hgap]
          rw [hrun, ihSome t0 ht0 ht0R]
          cases h2 : silentRunTrig f.time rest with
          | true =>
            have h1 : silentRunTrig t0 rest = true := silentRunTrig_mono ht0f rest h2
            simp [silentRunTrig, specTrig, hs, hgap, h1, h2]
          | false =>
            simp [silentRunTrig, specTrig, hs, hgap, h2]
      · have hrun : runDetector (some t0) (f :: rest) = runDetector none rest := by
          simp [runDetector, hs]
        rw [hrun, ihNone]
        simp [silentRunTrig, specTrig, hs]
    · by_cases hs : isSilent f.data
      · have hrun : runDetector none (f :: rest) = runDetector (some f.time) rest := by
          simp [runDetector, hs]
        rw [hrun, ihSome f.time (hpos f (List.mem_cons_self f rest)) hle]
        simp [specTrig, hs]
      · have hrun : runDetector none (f :: rest) = runDetector none rest := by
          simp [runDetector, hs]
        rw [hrun, ihNone]
        simp [specTrig, hs]

/-- C1 (amended): over frame sequences sampled at positive, non-decreasing
timestamps, the silence detector calls stopRecording (exactly once, which the
Option-valued loop makes structural) if and only if some silent frame is
followed by a continuous run of frames with loudness below 5 whose elapsed
time exceeds 2000 ms strictly; any frame with loudness at or above 5 resets
the timer, which is what restricting the run to be continuous expresses.  The
claim states the boundary as at least 2000 ms, but the code compares
Date.now() - silenceStart > maxSilence strictly, see C1_counterexample. -/
theorem C1_silence_trigger (frames : List Frame)
    (hpos : ∀ f ∈ frames, 0 < f.time)
    (hmono : List.Pairwise (fun a b => a.time ≤ b.time) frames) :
    (runDetector none frames).isSome = specTrig frames :=
  (runDetector_spec_aux frames hpos hmono).2

/-- C1 witness: two silent frames 2100 ms apart trigger the stop. -/
theorem C1_silence_trigger_witness :
    (runDetector none [⟨100, [128]⟩, ⟨2200, [128]⟩]).isSome =
      specTrig [⟨100, [128]⟩, ⟨2200, [128]⟩] ∧
    specTrig [⟨100, [128]⟩, ⟨2200, [128]⟩] = true :=
  ⟨C1_silence_trigger [⟨100, [128]⟩, ⟨2200, [128]⟩] (by decide)
    (by simp [List.pairwise_cons]), by decide⟩

/-- C1 counterexample: two silent frames exactly 2000 ms apart satisfy the
claim's at-least-2000-ms condition, but the detector, which tests the strict
inequality Date.now() - silenceStart > 2000, never stops. -/
theorem C1_counterexample :
    specTrigGe [⟨100, [128]⟩, ⟨2100, [128]⟩] = true ∧
    runDetector none [⟨100, [128]⟩, ⟨2100, [128]⟩] = none := by
  constructor <;> decide

/-- Consuming n leading 202 responses adds n requests and n fixed 1000 ms
sleeps. -/
theorem pollLoop_replicate (n : Nat) (reqs delay : Nat) (l : List CheckResp) :
    pollLoop reqs delay (List.replicate n CheckResp.notReady ++ l) =
      pollLoop (reqs + n) (delay + 1000 * n) l := by
  induction n generalizing reqs delay with
  | zero => simp
  | succ n ih =>
    rw [List.replicate_succ, List.cons_append]
    show pollLoop (reqs + 1) (delay + 1000) (List.replicate n CheckResp.notReady ++ l) = _
    rw [ih]
    congr 1 <;> ring

/-- C2 (amended): for n 202 responses followed by one success, the poll loop
issues exactly n+1 check-run requests, sleeps exactly 1000 ms after each 202
(total 1000*n ms), never gives up for any n, and renders the carried reply,
except that a missing reply field or an empty reply string both render the
literal placeholder, because the code computes data.reply || "(No response)"
and the empty string is falsy in JS (the claim only allowed the missing
field, see C2_counterexample). -/
theorem C2_poll_loop (n : Nat) (s : String) :
    pollLoop 0 0 (List.replicate n CheckResp.notReady ++ [CheckResp.ok (some s)]) =
      PollResult.success (if s = "" then "(No response)" else s) (n + 1) (1000 * n) ∧
    pollLoop 0 0 (List.replicate n CheckResp.notReady ++ [CheckResp.ok none]) =
      PollResult.success "(No response)" (n + 1) (1000 * n) := by
  constructor <;>
  · rw [pollLoop_replicate]
    simp [pollLoop, renderReply, Nat.add_comm]

/-- C2 counterexample: a success response carrying reply = "" renders the
placeholder, not the carried (empty) reply. -/
theorem C2_counterexample :
    pollLoop 0 0 [CheckResp.ok (some "")] ≠ PollResult.success "" 1 0 ∧
    pollLoop 0 0 [CheckResp.ok (some "")] = PollResult.success "(No response)" 1 0 := by
  constructor <;> decide

/-- A session already holding thread id T, fed n more responses returning T,
sends T everywhere. -/
theorem runSession_replicate (T : String) (n : Nat) :
    runSession (some T) (List.replicate n (some T)) =
      List.replicate n (⟨some T, some T⟩ : TurnTrace) := by
  induction n with
  | zero => rfl
  | succ n ih =>
    rw [List.replicate_succ, List.replicate_succ]
    simp [runSession, ih]

/-- C3: in a session of n+1 successful turns in which the server returns
thread id T each time, the first turn sends thread_id null in its start-run
request, and every turn after the first sends T in its start-run request;
every turn (the first included, since the global is overwritten before the
poll loop starts) sends T in its check-run requests. -/
theorem C3_thread_id (T : String) (n : Nat) :
    runSession none (List.replicate (n + 1) (some T)) =
      ⟨none, some T⟩ :: List.replicate n (⟨some T, some T⟩ : TurnTrace) := by
  rw [List.replicate_succ]
  simp [runSession, runSession_replicate]

/-- C5 (amended): the chatbot.js onstop handler releases the microphone track
exactly when the recording produced at least one data chunk — an empty
recording returns early and leaks the track — while the part_001 variant
releases it unconditionally from its finally block; in both, a downstream
transcription failure (which sendAudioForTranscription absorbs) never
prevents the release. -/
theorem C5_track_release (chunks : List Nat) (downstreamFails : Bool) :
    (onstopMain chunks downstreamFails).tracksReleased = !chunks.isEmpty ∧
    (onstopFinallyVariant chunks downstreamFails).tracksReleased = true := by
  cases chunks <;> simp [onstopMain, onstopFinallyVariant]

/-- C5 counterexample: a recording with no data chunks leaves the track
unreleased in the chatbot.js variant, against the claim's "unconditionally
... when the recording produced no data". -/
theorem C5_counterexample :
    (onstopMain [] false).tracksReleased = false ∧
    (onstopFinallyVariant [] false).tracksReleased = true := by
  constructor <;> decide

/-- Every playback slot in an all-queued schedule starts no earlier than the
queue-free time it was scheduled against, and ends no earlier than it
starts. -/
theorem playSchedule_bounds (q0 : Nat) (arrivals : List (Nat × AudioOp))
    (hq : ∀ p ∈ arrivals, isQueued p.2 = true) :
    ∀ p ∈ playSchedule q0 arrivals, q0 ≤ p.1 ∧ p.1 ≤ p.2 := by
  induction arrivals generalizing q0 with
  | nil => simp [playSchedule]
  | cons a rest ih =>
    obtain ⟨t, op⟩ := a
    cases op with
    | direct d =>
      have := hq (t, AudioOp.direct d) (List.mem_cons_self _ _)
      simp [isQueued] at this
    | queued d =>
      intro p hp
      have hqR : ∀ p ∈ rest, isQueued p.2 = true :=
        fun p hp => hq p (List.mem_cons_of_mem _ hp)
      simp only [playSchedule, List.mem_cons] at hp
      rcases hp with rfl | hp
      · exact ⟨le_max_right t q0, Nat.le_add_right _ d⟩
      · have h := ih (max t q0 + d) hqR p hp
        exact ⟨le_trans (le_trans (le_max_right t q0) (Nat.le_add_right _ d)) h.1, h.2⟩

/-- An all-queued schedule is a chain: every slot ends no later than every
later slot starts. -/
theorem playSchedule_pairwise (q0 : Nat) (arrivals : List (Nat × AudioOp))
    (hq : ∀ p ∈ arrivals, isQueued p.2 = true) :
    List.Pairwise (fun a b => a.2 ≤ b.1) (playSchedule q0 arrivals) := by
  induction arrivals generalizing q0 with
  | nil => simp [playSchedule]
  | cons a rest ih =>
    obtain ⟨t, op⟩ := a
    cases op with
    | direct d =>
      have := hq (t, AudioOp.direct d) (List.mem_cons_self _ _)
      simp [isQueued] at this
    | queued d =>
      have hqR : ∀ p ∈ rest, isQueued p.2 = true :=
        fun p hp => hq p (List.mem_cons_of_mem _ hp)
      simp only [playSchedule, List.pairwise_cons]
      exact ⟨fun p hp => (playSchedule_bounds (max t q0 + d) rest hqR p hp).1, ih _ hqR⟩

/-- C6 (amended): utterances that go through enqueueSpeech are strictly
serialized: in arrival order, each one starts only after the prior one has
settled (completed or failed — the catch keeps the chain alive), so no two
queued utterances ever overlap and start times are non-decreasing.  The
claim extends this to replay of cached remote audio, which in fact bypasses
the queue, see C6_counterexample. -/
theorem C6_queue_serializes (q0 : Nat) (arrivals : List (Nat × AudioOp))
    (hq : ∀ p ∈ arrivals, isQueued p.2 = true) :
    List.Pairwise (fun a b => a.2 ≤ b.1) (playSchedule q0 arrivals) ∧
    ∀ p ∈ playSchedule q0 arrivals, p.1 ≤ p.2 :=
  ⟨playSchedule_pairwise q0 arrivals hq,
    fun p hp => (playSchedule_bounds q0 arrivals hq p hp).2⟩

/-- C6 witness: two utterances enqueued at time 0 play back to back. -/
theorem C6_queue_serializes_witness :
    List.Pairwise (fun a b => a.2 ≤ b.1)
      (playSchedule 0 [(0, AudioOp.queued 2), (0, AudioOp.queued 3)]) ∧
    ∀ p ∈ playSchedule 0 [(0, AudioOp.queued 2), (0, AudioOp.queued 3)], p.1 ≤ p.2 :=
  C6_queue_serializes 0 [(0, AudioOp.queued 2), (0, AudioOp.queued 3)] (by decide)

/-- C6 counterexample: a replay of cached remote audio (the direct path of
replayBtn.onclick, which never calls enqueueSpeech) triggered at time 1,
while a queued utterance is speaking during [0, 10), starts immediately: the
two playbacks overlap, against the at-most-one-utterance-speaking claim. -/
theorem C6_counterexample :
    playSchedule 0 [(0, AudioOp.queued 10), (1, AudioOp.direct 5)] = [(0, 10), (1, 6)] ∧
    ¬ ((10 : Nat) ≤ 1 ∨ (6 : Nat) ≤ 0) := by
  constructor <;> decide

/-- C7 (amended): in the part_000 variant every remote-path failure falls
back to the local synthesizer; in the part_002 variant only the failures
raised before playback (network error, HTTP error, JSON decode error) fall
back, while a media decode error or a playback rejection is an unhandled
promise rejection with no fallback.  No failure is ever surfaced to the user
in either variant (no bubble is created on any of these paths). -/
theorem C7_fallback (f : RemoteFailure) :
    speakServerQueued f =
      (if f = RemoteFailure.noFailure then VoiceAction.playedRemote
       else VoiceAction.fellBackLocal) ∧
    speakServerDirect f =
      (if f = RemoteFailure.noFailure then VoiceAction.playedRemote
       else if f = RemoteFailure.decodeError ∨ f = RemoteFailure.playbackRejected then
         VoiceAction.silentFailure
       else VoiceAction.fellBackLocal) := by
  cases f <;> simp [speakServerQueued, speakServerDirect]

/-- C7 counterexample: in the part_002 variant a playback rejection (for
example autoplay blocking) does not fall back to the local voice. -/
theorem C7_counterexample :
    speakServerDirect RemoteFailure.playbackRejected ≠ VoiceAction.fellBackLocal ∧
    speakServerDirect RemoteFailure.playbackRejected = VoiceAction.silentFailure ∧
    speakServerDirect RemoteFailure.decodeError = VoiceAction.silentFailure := by
  refine ⟨by decide, by decide, by decide⟩

/-- C8 (amended): a non-POST request other than the OPTIONS preflight (which
receives 200) receives 405; a POST whose parsed body lacks audioBase64 (or
carries it empty, which is falsy) receives 400; a POST carrying audio while
the server credential is absent receives 500; and an upstream failure is
relayed as 502. -/
theorem C8_statuses (origin : Option String) (apiKey : Option String) (upstreamOk : Bool) :
    (∀ m : String, m ≠ "POST" → m ≠ "OPTIONS" → ∀ body,
      (transcribeHandler m origin body apiKey upstreamOk).statusCode = 405) ∧
    (∀ body, (transcribeHandler "OPTIONS" origin body apiKey upstreamOk).statusCode = 200) ∧
    (transcribeHandler "POST" origin (BodyParse.parsed none) apiKey upstreamOk).statusCode = 400 ∧
    (transcribeHandler "POST" origin (BodyParse.parsed (some "")) apiKey upstreamOk).statusCode
      = 400 ∧
    (∀ a : String, a ≠ "" →
      (transcribeHandler "POST" origin (BodyParse.parsed (some a)) none upstreamOk).statusCode
        = 500) ∧
    (∀ a k : String, a ≠ "" → k ≠ "" →
      (transcribeHandler "POST" origin (BodyParse.parsed (some a)) (some k) false).statusCode
        = 502) := by
  refine ⟨?_, ?_, ?_, ?_, ?_, ?_⟩
  · intro m h1 h2 body
    simp [transcribeHandler, transcribeStatus, h1, h2]
  · intro body
    simp [transcribeHandler, transcribeStatus]
  · simp [transcribeHandler, transcribeStatus]
  · simp [transcribeHandler, transcribeStatus]
  · intro a ha
    simp [transcribeHandler, transcribeStatus, ha]
  · intro a k ha hk
    simp [transcribeHandler, transcribeStatus, ha, hk]

/-- C8 witness: the amended statuses at concrete requests. -/
theorem C8_statuses_witness :
    (transcribeHandler "GET" none (BodyParse.parsed none) none true).statusCode = 405 ∧
    (transcribeHandler "OPTIONS" none (BodyParse.parsed none) none true).statusCode = 200 ∧
    (transcribeHandler "POST" none (BodyParse.parsed none) none true).statusCode = 400 ∧
    (transcribeHandler "POST" none (BodyParse.parsed (some "QUJD")) none true).statusCode = 500 ∧
    (transcribeHandler "POST" none (BodyParse.parsed (some "QUJD")) (some "sk")
      false).statusCode = 502 := by
  have h := C8_statuses none none true
  have h2 := C8_statuses none none false
  exact ⟨h.1 "GET" (by decide) (by decide) _, h.2.1 _, h.2.2.1,
    h.2.2.2.2.1 "QUJD" (by decide), h2.2.2.2.2.2 "QUJD" "sk" (by decide) (by decide)⟩

/-- C8 counterexample: OPTIONS is a method other than POST, yet the handler
answers the CORS preflight with 200, not 405. -/
theorem C8_counterexample :
    "OPTIONS" ≠ "POST" ∧
    (transcribeHandler "OPTIONS" none (BodyParse.parsed (some "QUJD")) (some "sk")
      true).statusCode = 200 := by
  constructor <;> decide

/-- C9: every response carries an Access-Control-Allow-Origin value drawn
from the allow-list — the request Origin when it is listed, the first entry
otherwise — and the status computation is completely independent of the
origin: a disallowed origin is not rejected, its request is processed like
any other. -/
theorem C9_cors_invariant (method : String) (origin : Option String) (body : BodyParse)
    (apiKey : Option String) (upstreamOk : Bool) :
    (transcribeHandler method origin body apiKey upstreamOk).corsHeader ∈ allowedOrigins ∧
    (transcribeHandler method origin body apiKey upstreamOk).corsHeader =
      (match origin with
       | some o => if o ∈ allowedOrigins then o else "https://masterplumbers.org.nz"
       | none => "https://masterplumbers.org.nz") ∧
    ∀ origin2, (transcribeHandler method origin2 body apiKey upstreamOk).statusCode =
      (transcribeHandler method origin body apiKey upstreamOk).statusCode := by
  refine ⟨?_, ?_, fun origin2 => rfl⟩
  · show corsOrigin origin ∈ allowedOrigins
    have hmem : allowedOrigins.headD "" ∈ allowedOrigins := by decide
    cases origin with
    | none => exact hmem
    | some o =>
      by_cases h : o ∈ allowedOrigins
      · simp only [corsOrigin, if_pos h]
        exact h
      · simp only [corsOrigin, if_neg h]
        exact hmem
  · show corsOrigin origin = _
    cases origin <;> rfl

/-! ### Lemmas about stripCitations (claim C4) -/

/-- takeWhile and dropWhile split l ++ r at the boundary when every element
of l satisfies p and the head of r does not. -/
theorem takeWhile_append_stop {p : Char → Bool} {l r : List Char}
    (hl : ∀ c ∈ l, p c = true) (hr : ∀ c, r.head? = some c → p c = false) :
    (l ++ r).takeWhile p = l ∧ (l ++ r).dropWhile p = r := by
  have h1 : (l ++ r).takeWhile p = l ++ r.takeWhile p := List.takeWhile_append_of_pos hl
  have h2 : (l ++ r).dropWhile p = r.dropWhile p := List.dropWhile_append_of_pos hl
  cases r with
  | nil =>
    constructor
    · rw [List.append_nil, List.takeWhile_eq_self_iff.mpr hl]
    · rw [List.append_nil, List.dropWhile_eq_nil_iff.mpr hl]
  | cons c rest =>
    have hc : ¬ p c = true := by simp [hr c rfl]
    rw [h1, h2, List.takeWhile_cons_of_neg hc, List.dropWhile_cons_of_neg hc, List.append_nil]
    exact ⟨rfl, rfl⟩

/-- A successful match consumes at least one character and never more than
the whole input. -/
theorem matchTail_length {s r : List Char} (h : matchTail s = some r) :
    r.length ≤ s.length := by
  have hd : ∀ (p : Char → Bool) (t : List Char), (t.dropWhile p).length ≤ t.length :=
    fun p t => (List.dropWhile_sublist p).length_le
  unfold matchTail at h
  split at h
  · simp at h
  · split at h
    case h_2 => simp at h
    case h_1 s2 heq =>
      have l1 : s2.length + 1 ≤ s.length := by
        have := hd isDigitChar s
        rw [heq] at this
        simpa using this
      split at h
      · simp at h
      · split at h
        case h_2 => simp at h
        case h_1 s3 heq2 =>
          have l2 : s3.length + 1 ≤ s2.length := by
            have := hd isDigitChar s2
            rw [heq2] at this
            simpa using this
          split at h
          · simp at h
          · split at h
            case h_1 s4 heq3 =>
              have l3 : s4.length + 1 ≤ s3.length := by
                have := hd isLabelChar s3
                rw [heq3] at this
                simpa using this
              cases h
              omega
            case h_2 s4 heq3 =>
              have l3 : s4.length + 1 ≤ s3.length := by
                have := hd isLabelChar s3
                rw [heq3] at this
                simpa using this
              split at h
              case h_1 s5 heq4 =>
                have l4 : s5.length + 1 ≤ s4.length := by
                  have := hd isExtraChar s4
                  rw [heq4] at this
                  simpa using this
                cases h
                omega
              case h_2 => simp at h
            case h_3 => simp at h

/-- The fueled scan is independent of the fuel once the fuel covers the
length of the input. -/
theorem stripFuel_congr :
    ∀ f1 f2 s, s.length ≤ f1 → s.length ≤ f2 → stripFuel f1 s = stripFuel f2 s := by
  intro f1
  induction f1 with
  | zero =>
    intro f2 s h1 _
    have : s = [] := List.length_eq_zero.mp (Nat.le_zero.mp h1)
    subst this
    cases f2 <;> rfl
  | succ f1 ih =>
    intro f2 s h1 h2
    cases s with
    | nil => cases f2 <;> rfl
    | cons c rest =>
      cases f2 with
      | zero => simp at h2
      | succ f2 =>
        have h1r : rest.length ≤ f1 := by simp at h1; omega
        have h2r : rest.length ≤ f2 := by simp at h2; omega
        simp only [stripFuel]
        by_cases hc : c = '【'
        · rw [if_pos hc, if_pos hc]
          cases hm : matchTail rest with
          | some s4 =>
            have hlen := matchTail_length hm
            exact ih f2 s4 (le_trans hlen h1r) (le_trans hlen h2r)
          | none => rw [ih f2 rest h1r h2r]
        · rw [if_neg hc, if_neg hc, ih f2 rest h1r h2r]

/-- Any sufficiently large fuel computes stripCitations. -/
theorem stripFuel_eq_strip (fuel : Nat) (s : List Char) (h : s.length ≤ fuel) :
    stripFuel fuel s = stripCitations s :=
  stripFuel_congr fuel s.length s h (le_refl _)

/-- The scan copies a character that cannot open a marker. -/
theorem stripCitations_cons_ne (c : Char) (s : List Char) (hc : ¬ c = '【') :
    stripCitations (c :: s) = c :: stripCitations s := by
  show stripFuel (s.length + 1) (c :: s) = _
  simp only [stripFuel, if_neg hc]
  rw [stripFuel_eq_strip s.length s (le_refl _)]

/-- The scan removes a match and resumes after it. -/
theorem stripCitations_cons_match {s s4 : List Char} (h : matchTail s = some s4) :
    stripCitations ('【' :: s) = stripCitations s4 := by
  show stripFuel (s.length + 1) ('【' :: s) = _
  simp only [stripFuel, if_pos rfl, h]
  exact stripFuel_eq_strip s.length s4 (matchTail_length h)

/-- The scan copies an opening bracket that starts no match. -/
theorem stripCitations_cons_nomatch {s : List Char} (h : matchTail s = none) :
    stripCitations ('【' :: s) = '【' :: stripCitations s := by
  show stripFuel (s.length + 1) ('【' :: s) = _
  simp only [stripFuel, if_pos rfl, h]
  rw [stripFuel_eq_strip s.length s (le_refl _)]
  simp

/-- A prefix without opening brackets passes through the scan unchanged. -/
theorem stripCitations_append_no_open (a s : List Char) (ha : '【' ∉ a) :
    stripCitations (a ++ s) = a ++ stripCitations s := by
  induction a with
  | nil => simp
  | cons c a ih =>
    have hc : ¬ c = '【' := by
      rintro rfl
      exact ha (List.mem_cons_self _ _)
    rw [List.cons_append, stripCitations_cons_ne c _ hc,
      ih (fun h => ha (List.mem_cons_of_mem _ h))]
    rfl

/-- A string without opening brackets is left unchanged. -/
theorem stripCitations_no_open (s : List Char) (hs : '【' ∉ s) :
    stripCitations s = s := by
  have h := stripCitations_append_no_open s [] hs
  have h0 : stripCitations ([] : List Char) = [] := rfl
  rw [h0, List.append_nil] at h
  exact h

/-- A string without opening brackets contains no marker. -/
theorem containsMarker_no_open (s : List Char) (hs : '【' ∉ s) :
    containsMarker s = false := by
  induction s with
  | nil => rfl
  | cons c rest ih =>
    have hc : ¬ c = '【' := by
      rintro rfl
      exact hs (List.mem_cons_self _ _)
    simp [containsMarker, hc, ih (fun h => hs (List.mem_cons_of_mem _ h))]

/-- The body of a well-shaped marker matches, consuming exactly the marker
and leaving the rest untouched.  e2 is the optional extra group including its
leading dagger. -/
theorem matchTail_marker (d1 d2 lab e2 b : List Char)
    (hd1e : d1 ≠ []) (hd1 : ∀ c ∈ d1, isDigitChar c = true)
    (hd2e : d2 ≠ []) (hd2 : ∀ c ∈ d2, isDigitChar c = true)
    (hlabe : lab ≠ []) (hlab : ∀ c ∈ lab, isLabelChar c = true)
    (he2 : e2 = [] ∨ ∃ e, e2 = '†' :: e ∧ ∀ c ∈ e, isExtraChar c = true) :
    matchTail (d1 ++ (':' :: (d2 ++ ('†' :: (lab ++ (e2 ++ ('】' :: b))))))) = some b := by
  have hne1 : d1.isEmpty = false := by
    cases d1 with
    | nil => exact absurd rfl hd1e
    | cons _ _ => rfl
  have hne2 : d2.isEmpty = false := by
    cases d2 with
    | nil => exact absurd rfl hd2e
    | cons _ _ => rfl
  have hne3 : lab.isEmpty = false := by
    cases lab with
    | nil => exact absurd rfl hlabe
    | cons _ _ => rfl
  have h1 := takeWhile_append_stop (p := isDigitChar) (l := d1)
    (r := ':' :: (d2 ++ ('†' :: (lab ++ (e2 ++ ('】' :: b)))))) hd1
    (by intro c hc; simp at hc; subst hc; decide)
  have h2 := takeWhile_append_stop (p := isDigitChar) (l := d2)
    (r := '†' :: (lab ++ (e2 ++ ('】' :: b)))) hd2
    (by intro c hc; simp at hc; subst hc; decide)
  have hlabhead : ∀ c, (e2 ++ ('】' :: b)).head? = some c → isLabelChar c = false := by
    intro c hc
    rcases he2 with rfl | ⟨e, rfl, _⟩
    · simp at hc
      subst hc
      decide
    · simp at hc
      subst hc
      decide
  have h3 := takeWhile_append_stop (p := isLabelChar) (l := lab)
    (r := e2 ++ ('】' :: b)) hlab hlabhead
  unfold matchTail
  rw [h1.1, h1.2, if_neg (by simp [hne1])]
  simp only []
  rw [h2.1, h2.2, if_neg (by simp [hne2])]
  simp only []
  rw [h3.1, h3.2, if_neg (by simp [hne3])]
  rcases he2 with rfl | ⟨e, rfl, he⟩
  · simp only [List.nil_append]
  · have h4 := takeWhile_append_stop (p := isExtraChar) (l := e)
      (r := '】' :: b) he (by intro c hc; simp at hc; subst hc; decide)
    simp only [List.cons_append]
    rw [h4.2]
    rfl

/-- C4 (amended): stripCitations removes every marker run the left-to-right
scan matches; in particular, when the reply text around a well-shaped marker
(such as 【3:1†doc.pdf†lines】) contains no further opening bracket, the whole
marker is removed and the resulting bubble text contains no citation-marker
substring.  The claim is not true for every reply text: the scan runs over
the original string only, so deleting an inner marker can splice the
surrounding characters into a new marker that survives, see
C4_counterexample. -/
theorem C4_strip_removes (a b d1 d2 lab : List Char) (ext : Option (List Char))
    (ha : '【' ∉ a) (hb : '【' ∉ b)
    (hd1e : d1 ≠ []) (hd1 : ∀ c ∈ d1, isDigitChar c = true)
    (hd2e : d2 ≠ []) (hd2 : ∀ c ∈ d2, isDigitChar c = true)
    (hlabe : lab ≠ []) (hlab : ∀ c ∈ lab, isLabelChar c = true)
    (hext : ∀ e, ext = some e → ∀ c ∈ e, isExtraChar c = true) :
    stripCitations (a ++ marker d1 d2 lab ext ++ b) = a ++ b ∧
    containsMarker (a ++ b) = false := by
  constructor
  · rw [List.append_assoc, stripCitations_append_no_open a _ ha]
    have hm : marker d1 d2 lab ext ++ b =
        '【' :: (d1 ++ (':' :: (d2 ++ ('†' :: (lab ++ (extPart ext ++ ('】' :: b))))))) := by
      simp [marker]
    rw [hm]
    have he2 : extPart ext = [] ∨
        ∃ e, extPart ext = '†' :: e ∧ ∀ c ∈ e, isExtraChar c = true := by
      cases ext with
      | none => exact Or.inl rfl
      | some e => exact Or.inr ⟨e, rfl, hext e rfl⟩
    rw [stripCitations_cons_match
      (matchTail_marker d1 d2 lab _ b hd1e hd1 hd2e hd2 hlabe hlab he2)]
    exact congrArg _ (stripCitations_no_open b hb)
  · exact containsMarker_no_open _ (by
      intro h
      rcases List.mem_append.mp h with h | h
      · exact ha h
      · exact hb h)

/-- C4 witness: the concrete marker of the claim strips to nothing. -/
theorem C4_strip_removes_witness :
    stripCitations (([] : List Char) ++
      marker ['3'] ['1'] ['d', 'o', 'c', '.', 'p', 'd', 'f'] (some ['l', 'i', 'n', 'e', 's'])
      ++ []) = ([] : List Char) ++ [] ∧
    containsMarker (([] : List Char) ++ []) = false := by
  refine (C4_strip_removes [] [] ['3'] ['1'] ['d', 'o', 'c', '.', 'p', 'd', 'f']
    (some ['l', 'i', 'n', 'e', 's']) ?_ ?_ ?_ ?_ ?_ ?_ ?_ ?_ ?_)
  · decide
  · decide
  · decide
  · decide
  · decide
  · decide
  · decide
  · decide
  · intro e he
    cases he
    decide

/-- The spliced input of the C4 counterexample. -/
def exSplice : List Char :=
  ['【', '1', ':', '2', '†', 'a', '【', '1', ':', '2', '†', 'b', '】', '】']

/-- C4 counterexample: the reply text 【1:2†a【1:2†b】】 contains a marker run
(【1:2†b】), yet after stripCitations removes it the surrounding characters
splice into the fresh marker 【1:2†a】, so the rendered text still contains a
citation-marker substring. -/
theorem C4_counterexample :
    containsMarker exSplice = true ∧
    containsMarker (stripCitations exSplice) = true ∧
    stripCitations exSplice = ['【', '1', ':', '2', '†', 'a', '】'] := by
  refine ⟨by decide, by decide, by decide⟩

/-! ### Lemmas about repairInlineCitations (claim C10) -/

/-- parseNums only consumes characters. -/
theorem parseNums_length {s : List Char} {x : List Char × List Char × List Char}
    (h : parseNums s = some x) : x.2.2.length ≤ s.length := by
  have hd : ∀ (p : Char → Bool) (t : List Char), (t.dropWhile p).length ≤ t.length :=
    fun p t => (List.dropWhile_sublist p).length_le
  unfold parseNums at h
  split at h
  · simp at h
  · split at h
    case h_2 => simp at h
    case h_1 s2 heq =>
      have l1 : s2.length + 1 ≤ s.length := by
        have := hd isDigitChar s
        rw [heq] at this
        simpa using this
      split at h
      · simp at h
      · split at h
        case h_2 => simp at h
        case h_1 s3 heq2 =>
          have l2 : s3.length + 1 ≤ s2.length := by
            have := hd isDigitChar s2
            rw [heq2] at this
            simpa using this
          cases h
          simp only []
          omega

/-- tryClose1 only consumes characters. -/
theorem tryClose1_length {s : List Char} {x : List Char × List Char × List Char}
    (h : tryClose1 s = some x) : x.2.2.length ≤ s.length := by
  unfold tryClose1 at h
  split at h
  case h_1 c1 c2 c3 r =>
    split at h
    · have := parseNums_length h
      simp only [List.length_cons]
      omega
    · simp at h
  case h_2 => simp at h

/-- tryClose2 only consumes characters. -/
theorem tryClose2_length {s : List Char} {x : List Char × List Char × List Char}
    (h : tryClose2 s = some x) : x.2.2.length ≤ s.length := by
  unfold tryClose2 at h
  split at h
  case h_1 c1 c2 r =>
    split at h
    · have := parseNums_length h
      simp only [List.length_cons]
      omega
    · simp at h
  case h_2 => simp at h

/-- The lazy scan of the first pattern only consumes characters. -/
theorem lazyFind1_length :
    ∀ (s : List Char) (x : List Char × List Char × List Char × List Char),
      lazyFind1 s = some x → x.2.2.2.length ≤ s.length := by
  intro s
  induction s with
  | nil => intro x h; simp [lazyFind1] at h
  | cons c rest ih =>
    intro x h
    simp only [lazyFind1] at h
    cases htc : tryClose1 (c :: rest) with
    | some y =>
      rw [htc] at h
      cases h
      exact tryClose1_length htc
    | none =>
      rw [htc] at h
      by_cases hnl : c = '\n'
      · rw [if_pos hnl] at h
        simp at h
      · rw [if_neg hnl] at h
        cases hlf : lazyFind1 rest with
        | none => rw [hlf] at h; simp at h
        | some y =>
          rw [hlf] at h
          cases h
          have := ih y hlf
          simp only [List.length_cons]
          omega

/-- The lazy scan of the second pattern only consumes characters. -/
theorem lazyFind2_length :
    ∀ (s : List Char) (x : List Char × List Char × List Char × List Char),
      lazyFind2 s = some x → x.2.2.2.length ≤ s.length := by
  intro s
  induction s with
  | nil => intro x h; simp [lazyFind2] at h
  | cons c rest ih =>
    intro x h
    simp only [lazyFind2] at h
    cases htc : tryClose2 (c :: rest) with
    | some y =>
      rw [htc] at h
      cases h
      exact tryClose2_length htc
    | none =>
      rw [htc] at h
      by_cases hnl : c = '\n'
      · rw [if_pos hnl] at h
        simp at h
      · rw [if_neg hnl] at h
        cases hlf : lazyFind2 rest with
        | none => rw [hlf] at h; simp at h
        | some y =>
          rw [hlf] at h
          cases h
          have := ih y hlf
          simp only [List.length_cons]
          omega

/-- The fueled repair scan is independent of the fuel once it covers the
length of the input. -/
theorem repairScanF_congr
    (find : List Char → Option (List Char × List Char × List Char × List Char))
    (hfind : ∀ s x, find s = some x → x.2.2.2.length ≤ s.length) :
    ∀ f1 f2 s, s.length ≤ f1 → s.length ≤ f2 →
      repairScanF find f1 s = repairScanF find f2 s := by
  intro f1
  induction f1 with
  | zero =>
    intro f2 s h1 _
    have : s = [] := List.length_eq_zero.mp (Nat.le_zero.mp h1)
    subst this
    cases f2 <;> rfl
  | succ f1 ih =>
    intro f2 s h1 h2
    cases s with
    | nil => cases f2 <;> rfl
    | cons c rest =>
      cases f2 with
      | zero => simp at h2
      | succ f2 =>
        have h1r : rest.length ≤ f1 := by simp at h1; omega
        have h2r : rest.length ≤ f2 := by simp at h2; omega
        simp only [repairScanF]
        by_cases hc : c = '[' ∧ rest.take 7 = sourceLit
        · rw [if_pos hc, if_pos hc]
          cases hm : find ((rest.drop 7).dropWhile isSpaceChar) with
          | some x =>
            obtain ⟨lab, d1, d2, r⟩ := x
            have h3 : r.length ≤ ((rest.drop 7).dropWhile isSpaceChar).length := hfind _ _ hm
            have h4 : ((rest.drop 7).dropWhile isSpaceChar).length ≤ (rest.drop 7).length :=
              (List.dropWhile_sublist _).length_le
            have h5 : (rest.drop 7).length ≤ rest.length := by
              rw [List.length_drop]
              omega
            have hlen : r.length ≤ rest.length := by omega
            show canonMarker d1 d2 lab ++ repairScanF find f1 r =
              canonMarker d1 d2 lab ++ repairScanF find f2 r
            exact congrArg _ (ih f2 r (le_trans hlen h1r) (le_trans hlen h2r))
          | none => rw [ih f2 rest h1r h2r]
        · rw [if_neg hc, if_neg hc, ih f2 rest h1r h2r]

/-- Any sufficiently large fuel computes the repair scan. -/
theorem repairScanF_eq
    (find : List Char → Option (List Char × List Char × List Char × List Char))
    (hfind : ∀ s x, find s = some x → x.2.2.2.length ≤ s.length)
    (fuel : Nat) (s : List Char) (h : s.length ≤ fuel) :
    repairScanF find fuel s = repairScan find s :=
  repairScanF_congr find hfind fuel s.length s h (le_refl _)

/-- The repair scan copies a character at which the pattern cannot start. -/
theorem repairScan_cons_ne
    (find : List Char → Option (List Char × List Char × List Char × List Char))
    (hfind : ∀ s x, find s = some x → x.2.2.2.length ≤ s.length)
    (c : Char) (s : List Char) (hc : ¬ (c = '[' ∧ s.take 7 = sourceLit)) :
    repairScan find (c :: s) = c :: repairScan find s := by
  show repairScanF find (s.length + 1) (c :: s) = _
  simp only [repairScanF, if_neg hc]
  rw [repairScanF_eq find hfind s.length s (le_refl _)]

/-- The repair scan rewrites a match and resumes after it. -/
theorem repairScan_cons_match
    (find : List Char → Option (List Char × List Char × List Char × List Char))
    (hfind : ∀ s x, find s = some x → x.2.2.2.length ≤ s.length)
    {rest lab d1 d2 r : List Char}
    (hsrc : rest.take 7 = sourceLit)
    (hfound : find ((rest.drop 7).dropWhile isSpaceChar) = some (lab, d1, d2, r)) :
    repairScan find ('[' :: rest) = canonMarker d1 d2 lab ++ repairScan find r := by
  show repairScanF find (rest.length + 1) ('[' :: rest) = _
  rw [repairScanF, if_pos (⟨rfl, hsrc⟩ : '[' = '[' ∧ rest.take 7 = sourceLit), hfound]
  show canonMarker d1 d2 lab ++ repairScanF find rest.length r =
    canonMarker d1 d2 lab ++ repairScan find r
  congr 1
  have h3 : r.length ≤ ((rest.drop 7).dropWhile isSpaceChar).length := hfind _ _ hfound
  have h4 : ((rest.drop 7).dropWhile isSpaceChar).length ≤ (rest.drop 7).length :=
    (List.dropWhile_sublist _).length_le
  have h5 : (rest.drop 7).length ≤ rest.length := by
    rw [List.length_drop]
    omega
  exact repairScanF_eq find hfind rest.length r (by omega)

/-- The repair scan copies an opening bracket at which the lazy scan fails. -/
theorem repairScan_cons_nomatch
    (find : List Char → Option (List Char × List Char × List Char × List Char))
    (hfind : ∀ s x, find s = some x → x.2.2.2.length ≤ s.length)
    {rest : List Char}
    (hnone : find ((rest.drop 7).dropWhile isSpaceChar) = none) :
    repairScan find ('[' :: rest) = '[' :: repairScan find rest := by
  show repairScanF find (rest.length + 1) ('[' :: rest) = _
  rw [repairScanF]
  by_cases hc : '[' = '[' ∧ rest.take 7 = sourceLit
  · rw [if_pos hc, hnone]
    show '[' :: repairScanF find rest.length rest = _
    rw [repairScanF_eq find hfind rest.length rest (le_refl _)]
  · rw [if_neg hc]
    rw [repairScanF_eq find hfind rest.length rest (le_refl _)]

/-- A prefix without opening square brackets passes through the repair scan
unchanged. -/
theorem repairScan_append_no_bracket
    (find : List Char → Option (List Char × List Char × List Char × List Char))
    (hfind : ∀ s x, find s = some x → x.2.2.2.length ≤ s.length)
    (a s : List Char) (ha : '[' ∉ a) :
    repairScan find (a ++ s) = a ++ repairScan find s := by
  induction a with
  | nil => simp
  | cons c a ih =>
    have hc : ¬ (c = '[' ∧ (a ++ s).take 7 = sourceLit) := by
      rintro ⟨rfl, _⟩
      exact ha (List.mem_cons_self _ _)
    rw [List.cons_append, repairScan_cons_ne find hfind c _ hc,
      ih (fun h => ha (List.mem_cons_of_mem _ h))]
    rfl

/-- A string without opening square brackets is left unchanged by the repair
scan. -/
theorem repairScan_no_bracket
    (find : List Char → Option (List Char × List Char × List Char × List Char))
    (hfind : ∀ s x, find s = some x → x.2.2.2.length ≤ s.length)
    (s : List Char) (hs : '[' ∉ s) :
    repairScan find s = s := by
  have h := repairScan_append_no_bracket find hfind s [] hs
  have h0 : repairScan find ([] : List Char) = [] := rfl
  rw [h0, List.append_nil] at h
  exact h

/-- tryClose1 fails unless the first two characters are both closing
brackets. -/
theorem tryClose1_none_of_pair {c1 c2 : Char} (t : List Char)
    (h : ¬ (c1 = '】' ∧ c2 = '】')) :
    tryClose1 (c1 :: c2 :: t) = none := by
  cases t with
  | nil => rfl
  | cons c3 r =>
    simp only [tryClose1]
    rw [if_neg]
    rintro ⟨h1, h2, _⟩
    exact h ⟨h1, h2⟩

/-- tryClose2 fails unless the first character is a closing bracket. -/
theorem tryClose2_none_of_head {c : Char} (t : List Char) (h : ¬ c = '】') :
    tryClose2 (c :: t) = none := by
  cases t with
  | nil => rfl
  | cons c2 r =>
    simp only [tryClose2]
    rw [if_neg]
    rintro ⟨h1, _⟩
    exact h h1

/-- The lazy scan of the first pattern fails on any string holding at most
one closing bracket: the "】】" delimiter can never occur. -/
theorem lazyFind1_none (s : List Char) (h : s.count '】' ≤ 1) : lazyFind1 s = none := by
  induction s with
  | nil => rfl
  | cons c rest ih =>
    have hrest : rest.count '】' ≤ 1 :=
      le_trans ((List.sublist_cons_self c rest).count_le '】') h
    have hclose : tryClose1 (c :: rest) = none := by
      cases rest with
      | nil => rfl
      | cons c2 rest2 =>
        apply tryClose1_none_of_pair
        rintro ⟨rfl, rfl⟩
        simp only [List.count_cons_self] at h
        omega
    simp only [lazyFind1, hclose]
    by_cases hnl : c = '\n'
    · rw [if_pos hnl]
    · rw [if_neg hnl, ih hrest]
      rfl

/-- parseNums succeeds on digits ":" digits "]" followed by anything. -/
theorem parseNums_append (d1 d2 b : List Char)
    (hd1e : d1 ≠ []) (hd1 : ∀ c ∈ d1, isDigitChar c = true)
    (hd2e : d2 ≠ []) (hd2 : ∀ c ∈ d2, isDigitChar c = true) :
    parseNums (d1 ++ (':' :: (d2 ++ (']' :: b)))) = some (d1, d2, b) := by
  have hne1 : d1.isEmpty = false := by
    cases d1 with
    | nil => exact absurd rfl hd1e
    | cons _ _ => rfl
  have hne2 : d2.isEmpty = false := by
    cases d2 with
    | nil => exact absurd rfl hd2e
    | cons _ _ => rfl
  have h1 := takeWhile_append_stop (p := isDigitChar) (l := d1)
    (r := ':' :: (d2 ++ (']' :: b))) hd1
    (by intro c hc; simp at hc; subst hc; decide)
  have h2 := takeWhile_append_stop (p := isDigitChar) (l := d2)
    (r := ']' :: b) hd2
    (by intro c hc; simp at hc; subst hc; decide)
  unfold parseNums
  rw [h1.1, h1.2, if_neg (by simp [hne1])]
  simp only []
  rw [h2.1, h2.2, if_neg (by simp [hne2])]
  rfl

/-- The marker body of the stripCitations pattern does not match at the
opening bracket of the malformed citation: after its two digit groups comes
"]" where the pattern requires the dagger. -/
theorem matchTail_malformed (d1 d2 b : List Char)
    (hd1e : d1 ≠ []) (hd1 : ∀ c ∈ d1, isDigitChar c = true)
    (hd2 : ∀ c ∈ d2, isDigitChar c = true) :
    matchTail (d1 ++ (':' :: (d2 ++ (']' :: b)))) = none := by
  have hne1 : d1.isEmpty = false := by
    cases d1 with
    | nil => exact absurd rfl hd1e
    | cons _ _ => rfl
  have h1 := takeWhile_append_stop (p := isDigitChar) (l := d1)
    (r := ':' :: (d2 ++ (']' :: b))) hd1
    (by intro c hc; simp at hc; subst hc; decide)
  have h2 := takeWhile_append_stop (p := isDigitChar) (l := d2)
    (r := ']' :: b) hd2
    (by intro c hc; simp at hc; subst hc; decide)
  unfold matchTail
  rw [h1.1, h1.2, if_neg (by simp [hne1])]
  simp only []
  rw [h2.1, h2.2]
  split <;> rfl

/-- dropWhile is the identity when the head fails the predicate. -/
theorem dropWhile_eq_self_of_head {p : Char → Bool} {l : List Char}
    (h : ∀ c, l.head? = some c → p c = false) : l.dropWhile p = l := by
  cases l with
  | nil => rfl
  | cons c rest => exact List.dropWhile_cons_of_neg (by simp [h c rfl])

/-- An ASCII digit is none of the delimiter characters. -/
theorem digit_ne (c : Char) (h : isDigitChar c = true) :
    c ≠ '【' ∧ c ≠ '】' ∧ c ≠ '[' ∧ c ≠ '\n' := by
  simp only [isDigitChar, Bool.and_eq_true, decide_eq_true_eq] at h
  obtain ⟨h1, h2⟩ := h
  refine ⟨?_, ?_, ?_, ?_⟩
  · rintro rfl
    exact absurd h2 (by decide)
  · rintro rfl
    exact absurd h2 (by decide)
  · rintro rfl
    exact absurd h2 (by decide)
  · rintro rfl
    exact absurd h1 (by decide)

/-- The lazy scan of the second pattern finds exactly the malformed
citation's group and digits when the group holds no delimiter characters. -/
theorem lazyFind2_found (lab d1 d2 b : List Char)
    (hlab : ∀ c ∈ lab, isLabelChar c = true) (hnl : '\n' ∉ lab)
    (hd1e : d1 ≠ []) (hd1 : ∀ c ∈ d1, isDigitChar c = true)
    (hd2e : d2 ≠ []) (hd2 : ∀ c ∈ d2, isDigitChar c = true) :
    lazyFind2 (lab ++ ('】' :: ('【' :: (d1 ++ (':' :: (d2 ++ (']' :: b))))))) =
      some (lab, d1, d2, b) := by
  induction lab with
  | nil =>
    simp only [List.nil_append, lazyFind2]
    have hc : tryClose2 ('】' :: ('【' :: (d1 ++ (':' :: (d2 ++ (']' :: b)))))) =
        parseNums (d1 ++ (':' :: (d2 ++ (']' :: b)))) := by
      simp [tryClose2]
    rw [hc, parseNums_append d1 d2 b hd1e hd1 hd2e hd2]
  | cons c lab ih =>
    have hcl : isLabelChar c = true := hlab c (List.mem_cons_self _ _)
    have hc : ¬ c = '】' := by
      simp only [isLabelChar, Bool.and_eq_true, decide_eq_true_eq] at hcl
      tauto
    have hnlc : ¬ c = '\n' := by
      rintro rfl
      exact hnl (List.mem_cons_self _ _)
    rw [List.cons_append]
    simp only [lazyFind2, tryClose2_none_of_head _ hc]
    rw [if_neg hnlc,
      ih (fun x hx => hlab x (List.mem_cons_of_mem _ hx))
        (fun hx => hnl (List.mem_cons_of_mem _ hx))]
    rfl

/-- stripCitations leaves the malformed citation intact: its only opening
bracket is followed by digits ":" digits "]", which the marker pattern
rejects. -/
theorem strip_malformed_id (a b lab d1 d2 : List Char)
    (haO : '【' ∉ a) (hbO : '【' ∉ b)
    (hlab : ∀ c ∈ lab, isLabelChar c = true)
    (hd1e : d1 ≠ []) (hd1 : ∀ c ∈ d1, isDigitChar c = true)
    (hd2 : ∀ c ∈ d2, isDigitChar c = true) :
    stripCitations (a ++ malformedCitation lab d1 d2 ++ b) =
      a ++ malformedCitation lab d1 d2 ++ b := by
  have hlabO : '【' ∉ lab := fun hm => by
    have h := hlab _ hm
    simp [isLabelChar] at h
  have hd1O : '【' ∉ d1 := fun hm => (digit_ne _ (hd1 _ hm)).1 rfl
  have hd2O : '【' ∉ d2 := fun hm => (digit_ne _ (hd2 _ hm)).1 rfl
  have hshape : a ++ malformedCitation lab d1 d2 ++ b =
      (a ++ ('[' :: (sourceLit ++ (' ' :: (lab ++ ['】']))))) ++
        ('【' :: (d1 ++ (':' :: (d2 ++ (']' :: b))))) := by
    simp [malformedCitation, sourceLit]
  have hU : '【' ∉ a ++ ('[' :: (sourceLit ++ (' ' :: (lab ++ ['】'])))) := by
    intro hmem
    simp [sourceLit] at hmem
    rcases hmem with hmem | hmem
    · exact haO hmem
    · exact hlabO hmem
  have hV : '【' ∉ d1 ++ (':' :: (d2 ++ (']' :: b))) := by
    intro hmem
    simp at hmem
    rcases hmem with hmem | hmem | hmem
    · exact hd1O hmem
    · exact hd2O hmem
    · exact hbO hmem
  rw [hshape, stripCitations_append_no_open _ _ hU,
    stripCitations_cons_nomatch (matchTail_malformed d1 d2 b hd1e hd1 hd2),
    stripCitations_no_open _ hV]

/-- The first repair pattern never fires on the malformed citation: the text
holds a single closing bracket, so its "】】" delimiter cannot occur. -/
theorem pass1_malformed_id (a b lab d1 d2 : List Char)
    (haB : '[' ∉ a) (hbB : '[' ∉ b) (hbC : '】' ∉ b)
    (hlab : ∀ c ∈ lab, isLabelChar c = true) (hlabB : '[' ∉ lab)
    (hd1 : ∀ c ∈ d1, isDigitChar c = true)
    (hd2 : ∀ c ∈ d2, isDigitChar c = true) :
    repairPass1 (a ++ malformedCitation lab d1 d2 ++ b) =
      a ++ malformedCitation lab d1 d2 ++ b := by
  have hlabC : '】' ∉ lab := fun hm => by
    have h := hlab _ hm
    simp [isLabelChar] at h
  have hd1C : '】' ∉ d1 := fun hm => (digit_ne _ (hd1 _ hm)).2.1 rfl
  have hd2C : '】' ∉ d2 := fun hm => (digit_ne _ (hd2 _ hm)).2.1 rfl
  have hd1B : '[' ∉ d1 := fun hm => (digit_ne _ (hd1 _ hm)).2.2.1 rfl
  have hd2B : '[' ∉ d2 := fun hm => (digit_ne _ (hd2 _ hm)).2.2.1 rfl
  have hshape : a ++ malformedCitation lab d1 d2 ++ b =
      a ++ ('[' :: (sourceLit ++ (' ' :: (lab ++
        ('】' :: ('【' :: (d1 ++ (':' :: (d2 ++ (']' :: b)))))))))) := by
    simp [malformedCitation, sourceLit]
  have hcount1 :
      (lab ++ ('】' :: ('【' :: (d1 ++ (':' :: (d2 ++ (']' :: b))))))).count '】' ≤ 1 := by
    rw [List.count_append, List.count_cons_self,
      List.count_cons_of_ne (by decide : ('】' : Char) ≠ '【'),
      List.count_append,
      List.count_cons_of_ne (by decide : ('】' : Char) ≠ ':'),
      List.count_append,
      List.count_cons_of_ne (by decide : ('】' : Char) ≠ ']'),
      List.count_eq_zero_of_not_mem hlabC, List.count_eq_zero_of_not_mem hd1C,
      List.count_eq_zero_of_not_mem hd2C, List.count_eq_zero_of_not_mem hbC]
  have hnone : lazyFind1 (((sourceLit ++ (' ' :: (lab ++
      ('】' :: ('【' :: (d1 ++ (':' :: (d2 ++ (']' :: b))))))))).drop 7).dropWhile
        isSpaceChar) = none := by
    rw [List.drop_left' (show sourceLit.length = 7 from rfl)]
    apply lazyFind1_none
    have hsub := (List.dropWhile_sublist (l := ' ' :: (lab ++
      ('】' :: ('【' :: (d1 ++ (':' :: (d2 ++ (']' :: b)))))))) isSpaceChar).count_le '】'
    have hfull : (' ' :: (lab ++
        ('】' :: ('【' :: (d1 ++ (':' :: (d2 ++ (']' :: b)))))))).count '】' ≤ 1 := by
      rw [List.count_cons_of_ne (by decide : ('】' : Char) ≠ ' ')]
      exact hcount1
    omega
  have hrestB : '[' ∉ sourceLit ++ (' ' :: (lab ++
      ('】' :: ('【' :: (d1 ++ (':' :: (d2 ++ (']' :: b)))))))) := by
    intro hmem
    simp [sourceLit] at hmem
    rcases hmem with hmem | hmem | hmem | hmem
    · exact hlabB hmem
    · exact hd1B hmem
    · exact hd2B hmem
    · exact hbB hmem
  rw [hshape]
  unfold repairPass1
  rw [repairScan_append_no_bracket lazyFind1 lazyFind1_length a _ haB,
    repairScan_cons_nomatch lazyFind1 lazyFind1_length hnone,
    repairScan_no_bracket lazyFind1 lazyFind1_length _ hrestB]

/-- The second repair pattern rewrites the malformed citation into the
canonical marker and copies the rest of the text. -/
theorem pass2_malformed (a b lab d1 d2 : List Char)
    (haB : '[' ∉ a) (hbB : '[' ∉ b)
    (hlab : ∀ c ∈ lab, isLabelChar c = true) (hnl : '\n' ∉ lab)
    (hlabhead : ∀ c, lab.head? = some c → isSpaceChar c = false)
    (hd1e : d1 ≠ []) (hd1 : ∀ c ∈ d1, isDigitChar c = true)
    (hd2e : d2 ≠ []) (hd2 : ∀ c ∈ d2, isDigitChar c = true) :
    repairPass2 (a ++ malformedCitation lab d1 d2 ++ b) =
      a ++ (canonMarker d1 d2 lab ++ b) := by
  have hshape : a ++ malformedCitation lab d1 d2 ++ b =
      a ++ ('[' :: (sourceLit ++ (' ' :: (lab ++
        ('】' :: ('【' :: (d1 ++ (':' :: (d2 ++ (']' :: b)))))))))) := by
    simp [malformedCitation, sourceLit]
  have hsrc : (sourceLit ++ (' ' :: (lab ++
      ('】' :: ('【' :: (d1 ++ (':' :: (d2 ++ (']' :: b))))))))).take 7 = sourceLit :=
    List.take_left' (show sourceLit.length = 7 from rfl)
  have hws : ((' ' :: (lab ++
      ('】' :: ('【' :: (d1 ++ (':' :: (d2 ++ (']' :: b)))))))).dropWhile isSpaceChar) =
      lab ++ ('】' :: ('【' :: (d1 ++ (':' :: (d2 ++ (']' :: b)))))) := by
    rw [List.dropWhile_cons_of_pos (by decide)]
    apply dropWhile_eq_self_of_head
    intro c hc
    cases lab with
    | nil =>
      simp only [List.nil_append, List.head?_cons, Option.some.injEq] at hc
      subst hc
      decide
    | cons c0 lab2 =>
      simp only [List.cons_append, List.head?_cons, Option.some.injEq] at hc
      subst hc
      exact hlabhead _ rfl
  have hfound : lazyFind2 (((sourceLit ++ (' ' :: (lab ++
      ('】' :: ('【' :: (d1 ++ (':' :: (d2 ++ (']' :: b))))))))).drop 7).dropWhile
        isSpaceChar) = some (lab, d1, d2, b) := by
    rw [List.drop_left' (show sourceLit.length = 7 from rfl), hws]
    exact lazyFind2_found lab d1 d2 b hlab hnl hd1e hd1 hd2e hd2
  rw [hshape]
  unfold repairPass2
  rw [repairScan_append_no_bracket lazyFind2 lazyFind2_length a _ haB,
    repairScan_cons_match lazyFind2 lazyFind2_length hsrc hfound,
    repairScan_no_bracket lazyFind2 lazyFind2_length b hbB]

/-- C10: in the pipeline variants with citation repair (part_000 and
part_003), createBubble computes repairInlineCitations after stripCitations,
so the canonical marker produced by the repair is never stripped: for reply
text around a malformed citation "[Source: lab】【d1:d2]" whose surroundings
carry no stray bracket characters and whose label holds no marker
delimiters, the bubble text is exactly the input with the malformed citation
replaced by the canonical 【d1:d2†lab†lines】. -/
theorem C10_repair_after_strip (a b lab d1 d2 : List Char)
    (haO : '【' ∉ a) (haB : '[' ∉ a)
    (hbO : '【' ∉ b) (hbB : '[' ∉ b) (hbC : '】' ∉ b)
    (hlab : ∀ c ∈ lab, isLabelChar c = true) (hnl : '\n' ∉ lab) (hlabB : '[' ∉ lab)
    (hlabhead : ∀ c, lab.head? = some c → isSpaceChar c = false)
    (hd1e : d1 ≠ []) (hd1 : ∀ c ∈ d1, isDigitChar c = true)
    (hd2e : d2 ≠ []) (hd2 : ∀ c ∈ d2, isDigitChar c = true) :
    repairInlineCitations (stripCitations (a ++ malformedCitation lab d1 d2 ++ b)) =
      a ++ canonMarker d1 d2 lab ++ b := by
  rw [strip_malformed_id a b lab d1 d2 haO hbO hlab hd1e hd1 hd2]
  show repairPass2 (repairPass1 (a ++ malformedCitation lab d1 d2 ++ b)) = _
  rw [pass1_malformed_id a b lab d1 d2 haB hbB hbC hlab hlabB hd1 hd2,
    pass2_malformed a b lab d1 d2 haB hbB hlab hnl hlabhead hd1e hd1 hd2e hd2,
    List.append_assoc]

/-- C10 witness: the concrete malformed citation "[Source: doc】【3:1]" is
repaired, after stripping, into 【3:1†doc†lines】. -/
theorem C10_repair_after_strip_witness :
    repairInlineCitations (stripCitations
      (([] : List Char) ++ malformedCitation ['d', 'o', 'c'] ['3'] ['1'] ++ [])) =
      ([] : List Char) ++ canonMarker ['3'] ['1'] ['d', 'o', 'c'] ++ [] := by
  refine C10_repair_after_strip [] [] ['d', 'o', 'c'] ['3'] ['1']
    ?_ ?_ ?_ ?_ ?_ ?_ ?_ ?_ ?_ ?_ ?_ ?_ ?_
  · decide
  · decide
  · decide
  · decide
  · decide
  · decide
  · decide
  · decide
  · intro c hc
    simp at hc
    subst hc
    decide
  · decide
  · decide
  · decide
  · decide

end TobyPlus
